import Mathlib

/-!
# Verification of the `lab_work_10` integration subsystem

Shallow embedding of the quadrature kernel (`iteration1/iteration1.py`),
the threaded / processed partitioned backends
(`iteration2/iteration2.py`, `iteration3/iteration3.py`), the nogil
threaded variant (`iteration5/iteration5.py`) and the benchmark harness
(`compare_threaded_processed.py`), together with proofs of the spec's
claims about them.

Python floats are modelled by exact rationals (`ℚ`); sums and loops are
modelled by folds over `List.range`, matching the source loops.  Python
exceptions (ZeroDivisionError from `(b - a) / n_iter` at `n_iter = 0`,
ValueError from `ThreadPoolExecutor(max_workers=0)`, exceptions raised
by the integrand `f`, NameError for an unbound variable) are modelled by
`Except PyError`.
-/

namespace LabWork10

/-- Exceptions that the embedded code can raise.  `userError n` stands
for an arbitrary exception raised inside the integrand `f`;
`invalidArgument` is the spec's error kind (§7) for the zero-iteration
failure of the spec-modelled native kernels whose compiled sources are
not in the repository. -/
inductive PyError where
  | zeroDivisionError : PyError
  | valueError : PyError
  | nameError : PyError
  | invalidArgument : PyError
  | userError : ℕ → PyError
deriving DecidableEq, Repr

/-- One sub-task of the partitioned computation: the loop body of
`integrate_threaded` (iteration2.py, lines 34-39) builds, for each
`i < n_jobs`, the bounds `a_i = a + i*step`, `b_i = a + (i+1)*step` and
the iteration budget `n_iter // n_jobs`. -/
structure Partition where
  index : ℕ
  a_i : ℚ
  b_i : ℚ
  n_iter_i : ℕ
deriving DecidableEq, Repr

/-- One worker's result (spec's `PartialResult`): the value returned by
one `integrate` call, tagged with the partition index. -/
structure PartialResult where
  index : ℕ
  value : ℚ
deriving DecidableEq, Repr

/-- Embedding of `integrate` from `iteration1/iteration1.py`, the pure
value it computes when `n_iter ≥ 1`:

    acc = 0.0
    step = (b - a) / n_iter
    for i in range(n_iter):
      acc += f(a + i * step) * step
    return acc
-/
def integrate (f : ℚ → ℚ) (a b : ℚ) (n_iter : ℕ) : ℚ :=
  (List.range n_iter).foldl
    (fun acc (i : ℕ) =>
      acc + f (a + (i : ℚ) * ((b - a) / (n_iter : ℚ))) * ((b - a) / (n_iter : ℚ)))
    0

/-- The spec's description of the kernel (§4.1): "accumulate
`f(a + i*step) * step` for `i` in `[0, n_iter)`", written as a
`Finset` sum.  Used to compare the code's loop against the spec. -/
def leftRectSum (f : ℚ → ℚ) (a b : ℚ) (n_iter : ℕ) : ℚ :=
  ∑ i ∈ Finset.range n_iter, f (a + (i : ℚ) * ((b - a) / n_iter)) * ((b - a) / n_iter)

lemma foldl_add_eq_sum (g : ℕ → ℚ) (init : ℚ) (n : ℕ) :
    (List.range n).foldl (fun acc i => acc + g i) init =
      init + ∑ i ∈ Finset.range n, g i := by
  induction n with
  | zero => simp
  | succ n ih =>
      rw [List.range_succ, List.foldl_append, ih, Finset.sum_range_succ]
      simp [add_assoc]

lemma integrate_eq_sum (f : ℚ → ℚ) (a b : ℚ) (n_iter : ℕ) :
    integrate f a b n_iter = leftRectSum f a b n_iter := by
  unfold integrate leftRectSum
  rw [foldl_add_eq_sum (fun i : ℕ =>
    f (a + (i : ℚ) * ((b - a) / (n_iter : ℚ))) * ((b - a) / (n_iter : ℚ)))]
  simp

/-- Claim C1. For every `f`, `a`, `b` and `n_iter ≥ 1`,
`integrate(f, a, b, n_iter)` returns the left-rectangle sum: with
`step = (b - a) / n_iter`, the result is
`∑ i ∈ [0, n_iter), f(a + i*step) * step`. -/
theorem integrate_is_left_rectangle_sum (f : ℚ → ℚ) (a b : ℚ) (n_iter : ℕ)
    (h : 1 ≤ n_iter) :
    integrate f a b n_iter =
      ∑ i ∈ Finset.range n_iter,
        f (a + (i : ℚ) * ((b - a) / n_iter)) * ((b - a) / n_iter) :=
  integrate_eq_sum f a b n_iter

/-- Witness for C1 at `f = id`, `a = 0`, `b = 1`, `n_iter = 2`:
the left-rectangle sum is `f(0)*(1/2) + f(1/2)*(1/2) = 1/4`. -/
theorem integrate_is_left_rectangle_sum_witness :
    (1 ≤ 2 ∧
      integrate (fun x => x) 0 1 2 =
        ∑ i ∈ Finset.range 2,
          (fun x => x) (0 + (i : ℚ) * ((1 - 0) / (2 : ℕ))) * ((1 - 0) / (2 : ℕ))) ∧
    integrate (fun x => x) 0 1 2 = 1 / 4 :=
  ⟨⟨by norm_num,
    integrate_is_left_rectangle_sum (fun x => x) 0 1 2 (by norm_num)⟩,
    by norm_num [integrate, List.range_succ]⟩

/-- The partition planner: the loop of `integrate_threaded`
(`iteration2/iteration2.py`, lines 28-38) computes
`step = (b - a) / n_jobs` and, for each `i` in `range(n_jobs)`, the
bounds `a_i = a + i * step`, `b_i = a + (i + 1) * step`, with the
iteration budget `n_iter // n_jobs` fixed once in `spawn`
(`partial(executor.submit, integrate, f, n_iter=n_iter // n_jobs)`).
`iteration3/iteration3.py` builds the identical partitions. -/
def plan (a b : ℚ) (n_iter n_jobs : ℕ) : List Partition :=
  (List.range n_jobs).map (fun i =>
    { index := i
      a_i := a + (i : ℚ) * ((b - a) / (n_jobs : ℚ))
      b_i := a + ((i : ℚ) + 1) * ((b - a) / (n_jobs : ℚ))
      n_iter_i := n_iter / n_jobs })

/-- The backend's pure value semantics: each submitted task runs
`integrate f a_i b_i (n_iter // n_jobs)` and yields one partial result
(`fs.append(spawn(a_i, b_i))` then `[f.result() for f in as_completed(fs)]`). -/
def execute (ps : List Partition) (f : ℚ → ℚ) : List PartialResult :=
  ps.map (fun p => { index := p.index, value := integrate f p.a_i p.b_i p.n_iter_i })

/-- The aggregator: `return sum(results)` (`iteration2.py` line 42,
`iteration3.py` line 43). -/
def aggregate (results : List PartialResult) : ℚ :=
  (results.map PartialResult.value).sum

/-- Exact-arithmetic value of `integrate_threaded`
(`iteration2/iteration2.py`, lines 25-42): plan the partitions, run the
kernel on each, sum the partial results. -/
def integrate_threaded (f : ℚ → ℚ) (a b : ℚ) (n_jobs n_iter : ℕ) : ℚ :=
  aggregate (execute (plan a b n_iter n_jobs) f)

lemma plan_length (a b : ℚ) (n_iter n_jobs : ℕ) :
    (plan a b n_iter n_jobs).length = n_jobs := by
  simp [plan]

lemma sum_map_const_range (c n : ℕ) (g : ℕ → ℕ) (hg : ∀ i, g i = c) :
    ((List.range n).map g).sum = n * c := by
  induction n with
  | zero => simp
  | succ n ih =>
      rw [List.range_succ, List.map_append, List.sum_append]
      simp [hg, ih, Nat.succ_mul]

lemma plan_budget_sum (a b : ℚ) (n_iter n_jobs : ℕ) :
    ((plan a b n_iter n_jobs).map Partition.n_iter_i).sum =
      n_jobs * (n_iter / n_jobs) := by
  simp only [plan, List.map_map]
  exact sum_map_const_range (n_iter / n_jobs) n_jobs _ (fun i => rfl)

lemma mul_div_lt_iff_not_dvd (n_iter n_jobs : ℕ) (h : 1 ≤ n_jobs) :
    n_jobs * (n_iter / n_jobs) < n_iter ↔ ¬ n_jobs ∣ n_iter := by
  constructor
  · intro hlt hdvd
    rw [Nat.mul_div_cancel' hdvd] at hlt
    exact lt_irrefl _ hlt
  · intro hndvd
    have hr : n_iter % n_jobs ≠ 0 := fun h0 => hndvd (Nat.dvd_of_mod_eq_zero h0)
    calc n_jobs * (n_iter / n_jobs)
        < n_jobs * (n_iter / n_jobs) + n_iter % n_jobs :=
          Nat.lt_add_of_pos_right (Nat.pos_of_ne_zero hr)
      _ = n_iter := Nat.div_add_mod n_iter n_jobs

/-- Claim C5. The planner produces exactly `n_jobs` partitions; partition
`i` has bounds `a + i*(b-a)/n_jobs` and `a + (i+1)*(b-a)/n_jobs` and
budget `n_iter / n_jobs` (integer division); the total assigned
iterations equal `n_jobs * (n_iter / n_jobs)`, which is at most
`n_iter`, strictly less exactly when `n_jobs` does not divide `n_iter`. -/
theorem plan_partitions_spec (a b : ℚ) (n_iter n_jobs : ℕ) (h : 1 ≤ n_jobs) :
    (plan a b n_iter n_jobs).length = n_jobs ∧
    (∀ i, i < n_jobs →
      ({ index := i
         a_i := a + (i : ℚ) * ((b - a) / (n_jobs : ℚ))
         b_i := a + ((i : ℚ) + 1) * ((b - a) / (n_jobs : ℚ))
         n_iter_i := n_iter / n_jobs } : Partition) ∈ plan a b n_iter n_jobs) ∧
    (∀ p ∈ plan a b n_iter n_jobs,
      p.index < n_jobs ∧
      p.a_i = a + (p.index : ℚ) * ((b - a) / (n_jobs : ℚ)) ∧
      p.b_i = a + ((p.index : ℚ) + 1) * ((b - a) / (n_jobs : ℚ)) ∧
      p.n_iter_i = n_iter / n_jobs) ∧
    ((plan a b n_iter n_jobs).map Partition.n_iter_i).sum =
      n_jobs * (n_iter / n_jobs) ∧
    n_jobs * (n_iter / n_jobs) ≤ n_iter ∧
    (n_jobs * (n_iter / n_jobs) < n_iter ↔ ¬ n_jobs ∣ n_iter) := by
  refine ⟨plan_length a b n_iter n_jobs, ?_, ?_, plan_budget_sum a b n_iter n_jobs,
    Nat.mul_div_le n_iter n_jobs, mul_div_lt_iff_not_dvd n_iter n_jobs h⟩
  · intro i hi
    simp only [plan, List.mem_map, List.mem_range]
    exact ⟨i, hi, rfl⟩
  · intro p hp
    simp only [plan, List.mem_map, List.mem_range] at hp
    obtain ⟨i, hi, rfl⟩ := hp
    exact ⟨hi, rfl, rfl, rfl⟩

/-- Witness for C5 at `a = 0`, `b = 1`, `n_iter = 7`, `n_jobs = 2`:
two partitions of budget 3 each; `2 * 3 = 6 < 7` since `2 ∤ 7`. -/
theorem plan_partitions_spec_witness :
    1 ≤ 2 ∧ (plan 0 1 7 2).length = 2 ∧
    ((plan 0 1 7 2).map Partition.n_iter_i).sum = 6 ∧ 2 * (7 / 2) < 7 :=
  ⟨by norm_num,
   (plan_partitions_spec 0 1 7 2 (by norm_num)).1,
   by have := (plan_partitions_spec 0 1 7 2 (by norm_num)).2.2.2.1; simpa using this,
   ((plan_partitions_spec 0 1 7 2 (by norm_num)).2.2.2.2.2).mpr (by decide)⟩

/-- Claim C7. The aggregator returns the sum of the `.value` fields of its
input partial results, and this sum is invariant under permutation of
the input list. -/
theorem aggregate_is_order_independent_sum :
    (∀ results : List PartialResult,
      aggregate results = (results.map PartialResult.value).sum) ∧
    (∀ l₁ l₂ : List PartialResult, l₁.Perm l₂ → aggregate l₁ = aggregate l₂) :=
  ⟨fun _ => rfl, fun _ _ hp => List.Perm.sum_eq (List.Perm.map PartialResult.value hp)⟩

/-- Witness for C7 on the two-element list `[⟨0,1⟩, ⟨1,2⟩]` and its
transposition. -/
theorem aggregate_is_order_independent_sum_witness :
    aggregate [⟨0, 1⟩, ⟨1, 2⟩] =
      (([⟨0, 1⟩, ⟨1, 2⟩] : List PartialResult).map PartialResult.value).sum ∧
    aggregate [⟨0, 1⟩, ⟨1, 2⟩] = aggregate [⟨1, 2⟩, ⟨0, 1⟩] :=
  ⟨aggregate_is_order_independent_sum.1 ([⟨0, 1⟩, ⟨1, 2⟩] : List PartialResult),
   aggregate_is_order_independent_sum.2
     ([⟨0, 1⟩, ⟨1, 2⟩] : List PartialResult) ([⟨1, 2⟩, ⟨0, 1⟩] : List PartialResult)
     (List.Perm.swap (⟨1, 2⟩ : PartialResult) (⟨0, 1⟩ : PartialResult) [])⟩

lemma list_map_range_sum (g : ℕ → ℚ) (n : ℕ) :
    ((List.range n).map g).sum = ∑ i ∈ Finset.range n, g i := by
  induction n with
  | zero => simp
  | succ n ih =>
      rw [List.range_succ, List.map_append, List.sum_append, Finset.sum_range_succ, ih]
      simp

lemma sum_range_add_q (g : ℕ → ℚ) (c m : ℕ) :
    ∑ k ∈ Finset.range (c + m), g k =
      (∑ k ∈ Finset.range c, g k) + ∑ j ∈ Finset.range m, g (c + j) := by
  induction m with
  | zero => simp
  | succ m ih =>
      rw [Nat.add_succ, Finset.sum_range_succ, ih, Finset.sum_range_succ]
      ring

lemma sum_range_mul_q (g : ℕ → ℚ) (J m : ℕ) :
    ∑ k ∈ Finset.range (J * m), g k =
      ∑ i ∈ Finset.range J, ∑ j ∈ Finset.range m, g (i * m + j) := by
  induction J with
  | zero => simp
  | succ J ih =>
      rw [Nat.succ_mul, sum_range_add_q, ih, Finset.sum_range_succ]

lemma integrate_partition (f : ℚ → ℚ) (a b : ℚ) (J m i : ℕ)
    (hJ : 1 ≤ J) (hm : 1 ≤ m) :
    integrate f (a + (i : ℚ) * ((b - a) / (J : ℚ)))
      (a + ((i : ℚ) + 1) * ((b - a) / (J : ℚ))) m =
    ∑ j ∈ Finset.range m,
      f (a + ((i * m + j : ℕ) : ℚ) * ((b - a) / ((J * m : ℕ) : ℚ))) *
        ((b - a) / ((J * m : ℕ) : ℚ)) := by
  have hm0 : (m : ℚ) ≠ 0 := Nat.cast_ne_zero.mpr (by omega)
  have hJ0 : (J : ℚ) ≠ 0 := Nat.cast_ne_zero.mpr (by omega)
  rw [integrate_eq_sum]
  unfold leftRectSum
  refine Finset.sum_congr rfl ?_
  intro j hj
  have hd : (a + ((i : ℚ) + 1) * ((b - a) / (J : ℚ)) -
      (a + (i : ℚ) * ((b - a) / (J : ℚ)))) / (m : ℚ) =
      (b - a) / ((J * m : ℕ) : ℚ) := by
    have h1 : a + ((i : ℚ) + 1) * ((b - a) / (J : ℚ)) -
        (a + (i : ℚ) * ((b - a) / (J : ℚ))) = (b - a) / (J : ℚ) := by ring
    rw [h1, div_div]
    push_cast
    ring
  rw [hd]
  have harg : a + (i : ℚ) * ((b - a) / (J : ℚ)) +
      (j : ℚ) * ((b - a) / ((J * m : ℕ) : ℚ)) =
      a + ((i * m + j : ℕ) : ℚ) * ((b - a) / ((J * m : ℕ) : ℚ)) := by
    push_cast
    field_simp
    ring
  rw [harg]

/-- Claim C2. When `n_jobs` divides `n_iter` (both at least 1), the
partitioned computation — plan `n_jobs` equal sub-intervals, run
`integrate` on each with `n_iter / n_jobs` iterations, sum the partial
results — equals the sequential `integrate f a b n_iter` under exact
rational arithmetic: both evaluate `f` at the same sample points and
only the grouping of the summation differs. -/
theorem integrate_threaded_eq_integrate (f : ℚ → ℚ) (a b : ℚ) (n_jobs n_iter : ℕ)
    (hJ : 1 ≤ n_jobs) (hn : 1 ≤ n_iter) (hdvd : n_jobs ∣ n_iter) :
    integrate_threaded f a b n_jobs n_iter = integrate f a b n_iter := by
  obtain ⟨m, rfl⟩ := hdvd
  have hm1 : 1 ≤ m := by
    rcases Nat.eq_zero_or_pos m with h0 | h1
    · subst h0; simp at hn
    · exact h1
  have hdiv : n_jobs * m / n_jobs = m := Nat.mul_div_cancel_left m (by omega)
  simp only [integrate_threaded, aggregate, execute, plan, List.map_map, Function.comp]
  rw [list_map_range_sum, hdiv, integrate_eq_sum]
  unfold leftRectSum
  rw [sum_range_mul_q
    (fun k => f (a + (k : ℚ) * ((b - a) / ((n_jobs * m : ℕ) : ℚ))) *
      ((b - a) / ((n_jobs * m : ℕ) : ℚ))) n_jobs m]
  refine Finset.sum_congr rfl ?_
  intro i hi
  exact integrate_partition f a b n_jobs m i hJ hm1

/-- Witness for C2 at `f = id`, `a = 0`, `b = 1`, `n_jobs = 2`,
`n_iter = 4`: both groupings give `0 + 1/16 + 2/16 + 3/16 = 3/8`. -/
theorem integrate_threaded_eq_integrate_witness :
    (1 ≤ 2 ∧ 1 ≤ 4 ∧ 2 ∣ 4 ∧
      integrate_threaded (fun x => x) 0 1 2 4 = integrate (fun x => x) 0 1 4) ∧
    integrate (fun x => x) 0 1 4 = 3 / 8 :=
  ⟨⟨by norm_num, by norm_num, by norm_num,
    integrate_threaded_eq_integrate (fun x => x) 0 1 2 4
      (by norm_num) (by norm_num) (by norm_num)⟩,
   by norm_num [integrate, List.range_succ]⟩

lemma sum_range_reflect_q (G : ℚ → ℚ) (n : ℕ) :
    ∑ i ∈ Finset.range n, G ((n : ℚ) - (i : ℚ)) =
      ∑ j ∈ Finset.range n, G ((j : ℚ) + 1) := by
  rw [← Finset.sum_range_reflect (fun j => G ((j : ℚ) + 1)) n]
  refine Finset.sum_congr rfl ?_
  intro i hi
  have hi' : i < n := Finset.mem_range.mp hi
  have h1 : 1 + i ≤ n := by omega
  congr 1
  rw [Nat.sub_sub, Nat.cast_sub h1]
  push_cast
  ring

lemma sum_range_shift (h : ℕ → ℚ) (n : ℕ) :
    ∑ j ∈ Finset.range n, h (j + 1) =
      (∑ i ∈ Finset.range n, h i) + h n - h 0 := by
  have h1 := Finset.sum_range_succ' h n
  have h2 := Finset.sum_range_succ h n
  linarith

/-- Claim C6, counterexample. Swapping the bounds does not exactly negate
the result: for `f = x²`, `a = 1 > b = 0`, `n_iter = 1`, the code gives
`integrate(f, 1, 0, 1) = f(1)·(−1) = −1` while
`−integrate(f, 0, 1, 1) = −f(0)·1 = 0`.  The left-rectangle rule
samples different points on the reversed interval. -/
theorem integrate_swap_bounds_counterexample :
    ¬ (integrate (fun x => x ^ 2) 1 0 1 =
        -integrate (fun x => x ^ 2) 0 1 1) := by
  norm_num [integrate, List.range_succ]

/-- Claim C6, amended. Swapping the bounds yields the negative step
`(a - b)/n_iter` and negates the integral only up to the boundary
correction: `integrate(f, b, a, n) = −integrate(f, a, b, n) +
(f(a) − f(b)) · (b − a)/n`.  Exact negation holds exactly when
`f(a) = f(b)`. -/
theorem integrate_swap_bounds (f : ℚ → ℚ) (a b : ℚ) (n : ℕ) (hn : 1 ≤ n) :
    integrate f b a n =
      -integrate f a b n + (f a - f b) * ((b - a) / (n : ℚ)) := by
  have hn0 : (n : ℚ) ≠ 0 := Nat.cast_ne_zero.mpr (by omega)
  rw [integrate_eq_sum f b a n, integrate_eq_sum f a b n]
  unfold leftRectSum
  have hterm : ∀ i ∈ Finset.range n,
      f (b + (i : ℚ) * ((a - b) / (n : ℚ))) * ((a - b) / (n : ℚ)) =
      -(f (a + ((n : ℚ) - (i : ℚ)) * ((b - a) / (n : ℚ))) * ((b - a) / (n : ℚ))) := by
    intro i _
    have harg : b + (i : ℚ) * ((a - b) / (n : ℚ)) =
        a + ((n : ℚ) - (i : ℚ)) * ((b - a) / (n : ℚ)) := by
      field_simp
      ring
    rw [harg]
    ring
  rw [Finset.sum_congr rfl hterm, Finset.sum_neg_distrib,
    sum_range_reflect_q (fun x => f (a + x * ((b - a) / (n : ℚ))) * ((b - a) / (n : ℚ))) n]
  have hcast : ∀ j ∈ Finset.range n,
      f (a + ((j : ℚ) + 1) * ((b - a) / (n : ℚ))) * ((b - a) / (n : ℚ)) =
      (fun k : ℕ => f (a + (k : ℚ) * ((b - a) / (n : ℚ))) * ((b - a) / (n : ℚ))) (j + 1) := by
    intro j _
    push_cast
    ring_nf
  rw [Finset.sum_congr rfl hcast,
    sum_range_shift (fun k : ℕ => f (a + (k : ℚ) * ((b - a) / (n : ℚ))) * ((b - a) / (n : ℚ))) n]
  have hb : a + (n : ℚ) * ((b - a) / (n : ℚ)) = b := by
    field_simp
  simp only [Nat.cast_zero, zero_mul, add_zero, hb]
  ring

/-- Witness for the amended C6 at `f = x²`, `a = 0`, `b = 1`, `n = 1`:
`integrate(f, 1, 0, 1) = −1 = −0 + (0 − 1)·1`. -/
theorem integrate_swap_bounds_witness :
    1 ≤ 1 ∧
    integrate (fun x => x ^ 2) 1 0 1 =
      -integrate (fun x => x ^ 2) 0 1 1 +
        ((fun x => x ^ 2) 0 - (fun x => x ^ 2) 1) * ((1 - 0) / ((1 : ℕ) : ℚ)) :=
  ⟨le_refl 1, integrate_swap_bounds (fun x => x ^ 2) 0 1 1 (le_refl 1)⟩

/-- Embedding of `integrate` as executed by Python, with its failure modes: the
statement `step = (b - a) / n_iter` raises ZeroDivisionError when
`n_iter = 0` (before the loop runs), and an exception raised by the
integrand aborts the loop.  The integrand is fallible
(`f : ℚ → Except PyError ℚ`), modelling arbitrary user exceptions. -/
def integrateE (f : ℚ → Except PyError ℚ) (a b : ℚ) (n_iter : ℕ) :
    Except PyError ℚ :=
  if n_iter = 0 then .error .zeroDivisionError
  else
    (List.range n_iter).foldlM
      (fun acc (i : ℕ) =>
        match f (a + (i : ℚ) * ((b - a) / (n_iter : ℚ))) with
        | .error e => .error e
        | .ok v => .ok (acc + v * ((b - a) / (n_iter : ℚ))))
      (0 : ℚ)

/-- One worker's kernel invocation for a partition: the future created
by `spawn(a_i, b_i)` runs `integrate(f, a_i, b_i, n_iter=n_iter // n_jobs)`. -/
def kernelE (f : ℚ → Except PyError ℚ) (p : Partition) : Except PyError ℚ :=
  integrateE f p.a_i p.b_i p.n_iter_i

/-- The backend's result collection
(`results = [f.result() for f in ftres.as_completed(fs)]`): each
`f.result()` re-raises any exception raised inside that worker, so the
first failing partition aborts the whole collection and no result list
is produced. -/
def executeE (ps : List Partition) (f : ℚ → Except PyError ℚ) :
    Except PyError (List PartialResult) :=
  match ps with
  | [] => .ok []
  | p :: rest =>
    match kernelE f p with
    | .error e => .error e
    | .ok v =>
      match executeE rest f with
      | .error e => .error e
      | .ok others => .ok ({ index := p.index, value := v } :: others)

/-- Embedding of `integrate_threaded` (`iteration2/iteration2.py`) with its failure
modes: `ThreadPoolExecutor(max_workers=0)` raises ValueError; otherwise
the partitions are planned, each future runs the kernel, and the
collected results are summed.  `integrate_processed`
(`iteration3/iteration3.py`) is structurally identical with processes,
the worker exception marshaled back and re-raised at `f.result()`. -/
def integrate_threadedE (f : ℚ → Except PyError ℚ) (a b : ℚ)
    (n_jobs n_iter : ℕ) : Except PyError ℚ :=
  if n_jobs = 0 then .error .valueError
  else
    match executeE (plan a b n_iter n_jobs) f with
    | .error e => .error e
    | .ok results => .ok (aggregate results)

lemma integrateE_zero (f : ℚ → Except PyError ℚ) (a b : ℚ) :
    integrateE f a b 0 = .error .zeroDivisionError := rfl

lemma executeE_cons_error (p : Partition) (rest : List Partition)
    (f : ℚ → Except PyError ℚ) (e : PyError) (h : kernelE f p = .error e) :
    executeE (p :: rest) f = .error e := by
  simp [executeE, h]

lemma plan_head (a b : ℚ) (n_iter k : ℕ) :
    ∃ p tail, plan a b n_iter (k + 1) = p :: tail ∧
      p.n_iter_i = n_iter / (k + 1) := by
  rw [plan, List.range_succ_eq_map, List.map_cons]
  exact ⟨_, _, rfl, rfl⟩

lemma integrate_threadedE_budget_zero (f : ℚ → Except PyError ℚ) (a b : ℚ)
    (n_jobs n_iter : ℕ) (hJ : 1 ≤ n_jobs) (hz : n_iter / n_jobs = 0) :
    integrate_threadedE f a b n_jobs n_iter = .error .zeroDivisionError := by
  obtain ⟨k, rfl⟩ : ∃ k, n_jobs = k + 1 := ⟨n_jobs - 1, by omega⟩
  obtain ⟨p, tail, hplan, hbud⟩ := plan_head a b n_iter k
  have hk : kernelE f p = .error .zeroDivisionError := by
    rw [kernelE, hbud, hz, integrateE_zero]
  rw [integrate_threadedE, if_neg (by omega), hplan,
    executeE_cons_error p tail f PyError.zeroDivisionError hk]

/-- Embedding of `integrate_processed` (`iteration3/iteration3.py`,
lines 27-43): identical structure to `integrate_threadedE` with a
`ProcessPoolExecutor` (whose constructor also raises ValueError at
`max_workers=0`); the worker exception is marshaled across the process
boundary and re-raised at `f.result()`. -/
def integrate_processedE (f : ℚ → Except PyError ℚ) (a b : ℚ)
    (n_jobs n_iter : ℕ) : Except PyError ℚ :=
  if n_jobs = 0 then .error .valueError
  else
    match executeE (plan a b n_iter n_jobs) f with
    | .error e => .error e
    | .ok results => .ok (aggregate results)

lemma integrate_processedE_eq_threadedE (f : ℚ → Except PyError ℚ)
    (a b : ℚ) (n_jobs n_iter : ℕ) :
    integrate_processedE f a b n_jobs n_iter =
      integrate_threadedE f a b n_jobs n_iter := rfl

/-- Modelled from the spec: the compiled Cython kernel
`integrate_cython` (`iteration4/iteration4.py` imports it as
`cy.integrate_cython`; its `.pyx` source is not under src/).  Spec §4.1
gives every kernel variant the same contract — `step = (b - a) /
n_iter`, accumulate `f(a + i*step) * step` for `i` in `[0, n_iter)` —
and "`n_iter = 0` is an error (division by zero) and must fail with an
`InvalidArgument` condition rather than returning NaN/Inf silently"
(§8: "`n_iter = 0` always fails with `InvalidArgument` for every
backend"). -/
def integrate_cython (f : ℚ → ℚ) (a b : ℚ) (n_iter : ℕ) :
    Except PyError ℚ :=
  if n_iter = 0 then .error .invalidArgument
  else .ok (leftRectSum f a b n_iter)

/-- Modelled from the spec: the compiled nogil kernel
`integrate_nogil_sin` (`iteration5/iteration5.py` imports it as
`ng.integrate_nogil_sin`; its `integrate_nogil.pyx` source is not
under src/).  Same §4.1 kernel contract at the fixed integrand `sin`,
abstracted here as the parameter `s` (`ℚ` cannot denote `sin` itself);
by §8, `n_iter = 0` fails with the `InvalidArgument` condition. -/
def integrate_nogil_sin (s : ℚ → ℚ) (a b : ℚ) (n_iter : ℕ) :
    Except PyError ℚ :=
  if n_iter = 0 then .error .invalidArgument
  else .ok (leftRectSum s a b n_iter)

/-- Result collection of the iteration4 backends, which repeat the
iteration2 collection code verbatim
(`results = [f.result() for f in ftres.as_completed(fs)]`) with the
Cython kernel: the first failing worker aborts the collection. -/
def collectE (k : Partition → Except PyError ℚ) :
    List Partition → Except PyError (List PartialResult)
  | [] => .ok []
  | p :: rest =>
    match k p with
    | .error e => .error e
    | .ok v =>
      match collectE k rest with
      | .error e => .error e
      | .ok others => .ok ({ index := p.index, value := v } :: others)

/-- Embedding of `integrate_cython_threaded`
(`iteration4/iteration4.py`, lines 8-33): the iteration2 shape —
plan, submit, collect, sum — with the spec-modelled Cython kernel
fixed in `spawn` at `n_iter=n_iter // n_jobs`. -/
def integrate_cython_threadedE (f : ℚ → ℚ) (a b : ℚ)
    (n_jobs n_iter : ℕ) : Except PyError ℚ :=
  if n_jobs = 0 then .error .valueError
  else
    match collectE (fun p => integrate_cython f p.a_i p.b_i p.n_iter_i)
        (plan a b n_iter n_jobs) with
    | .error e => .error e
    | .ok results => .ok (aggregate results)

/-- Embedding of `integrate_cython_processed`
(`iteration4/iteration4.py`, lines 37-62): identical body to the
threaded variant with a `ProcessPoolExecutor`. -/
def integrate_cython_processedE (f : ℚ → ℚ) (a b : ℚ)
    (n_jobs n_iter : ℕ) : Except PyError ℚ :=
  if n_jobs = 0 then .error .valueError
  else
    match collectE (fun p => integrate_cython f p.a_i p.b_i p.n_iter_i)
        (plan a b n_iter n_jobs) with
    | .error e => .error e
    | .ok results => .ok (aggregate results)

lemma integrate_cython_processedE_eq_threadedE (f : ℚ → ℚ) (a b : ℚ)
    (n_jobs n_iter : ℕ) :
    integrate_cython_processedE f a b n_jobs n_iter =
      integrate_cython_threadedE f a b n_jobs n_iter := rfl

/-- Embedding of the comprehension
`[f.result() for f in ftres.as_completed(fs)]` over a list of futures:
collect every future's value, re-raising the first stored exception. -/
def collectFutures : List (Except PyError ℚ) → Except PyError (List ℚ)
  | [] => .ok []
  | r :: rest =>
    match r with
    | .error e => .error e
    | .ok v =>
      match collectFutures rest with
      | .error e => .error e
      | .ok vs => .ok (v :: vs)

/-- Embedding of the iteration5 submission loop with its in-loop result
collection: each iteration appends one future and immediately collects
all futures so far, so the first failing worker raises inside the loop
and aborts the whole call.  The state carries `(fs, results)`,
`results` starting unbound. -/
def nogil_loop (kq : ℕ → Except PyError ℚ)
    (fs : List (Except PyError ℚ)) (res : Option (List ℚ)) :
    List ℕ → Except PyError (List (Except PyError ℚ) × Option (List ℚ))
  | [] => .ok (fs, res)
  | i :: rest =>
    match collectFutures (fs ++ [kq i]) with
    | .error e => .error e
    | .ok results => nogil_loop kq (fs ++ [kq i]) (some results) rest

/-- Embedding of `integrate_nogil_threaded_sin`
(`iteration5/iteration5.py`, lines 5-26) with its failure modes:
`ThreadPoolExecutor(0)` raises ValueError; the loop plans the bounds,
spawns the spec-modelled nogil kernel on each partition and rebinds
`results` inside the loop; a worker exception re-raises at the in-loop
`f.result()`; finally `sum(results)` is returned. -/
def integrate_nogil_threaded_sinE (s : ℚ → ℚ) (a b : ℚ)
    (n_jobs n_iter : ℕ) : Except PyError ℚ :=
  if n_jobs = 0 then .error .valueError
  else
    match nogil_loop
      (fun (i : ℕ) => integrate_nogil_sin s
        (a + (i : ℚ) * ((b - a) / (n_jobs : ℚ)))
        (a + ((i : ℚ) + 1) * ((b - a) / (n_jobs : ℚ))) (n_iter / n_jobs))
      [] none (List.range n_jobs) with
    | .error e => .error e
    | .ok (_, none) => .error .nameError
    | .ok (_, some results) => .ok results.sum

lemma collectE_cons_error (k : Partition → Except PyError ℚ) (p : Partition)
    (rest : List Partition) (e : PyError) (h : k p = .error e) :
    collectE k (p :: rest) = .error e := by
  simp [collectE, h]

lemma integrate_cython_threadedE_budget_zero (f : ℚ → ℚ) (a b : ℚ)
    (n_jobs n_iter : ℕ) (hJ : 1 ≤ n_jobs) (hz : n_iter / n_jobs = 0) :
    integrate_cython_threadedE f a b n_jobs n_iter =
      .error .invalidArgument := by
  obtain ⟨k, rfl⟩ : ∃ k, n_jobs = k + 1 := ⟨n_jobs - 1, by omega⟩
  obtain ⟨p, tail, hplan, hbud⟩ := plan_head a b n_iter k
  have hk : integrate_cython f p.a_i p.b_i p.n_iter_i =
      .error .invalidArgument := by
    rw [hbud, hz]; rfl
  rw [integrate_cython_threadedE, if_neg (by omega), hplan,
    collectE_cons_error _ p tail PyError.invalidArgument hk]

lemma integrate_nogil_threaded_sinE_budget_zero (s : ℚ → ℚ) (a b : ℚ)
    (n_jobs n_iter : ℕ) (hJ : 1 ≤ n_jobs) (hz : n_iter / n_jobs = 0) :
    integrate_nogil_threaded_sinE s a b n_jobs n_iter =
      .error .invalidArgument := by
  obtain ⟨k, rfl⟩ : ∃ k, n_jobs = k + 1 := ⟨n_jobs - 1, by omega⟩
  have hk : ∀ lo hi : ℚ, integrate_nogil_sin s lo hi (n_iter / (k + 1)) =
      .error .invalidArgument := by
    intro lo hi; rw [hz]; rfl
  rw [integrate_nogil_threaded_sinE, if_neg (by omega),
    List.range_succ_eq_map]
  simp [nogil_loop, collectFutures, hk]

/-- Claim C3. `integrate(f, a, b, n_iter=0)` fails (the division
`(b - a) / n_iter` raises, so no number, NaN or Inf is returned), and
the same failure occurs for every backend of the repository that
receives a task with `n_iter = 0`: the sequential kernel (iteration1),
the thread-pool (iteration2) and process-pool (iteration3) backends —
where every partition's budget is `0 // n_jobs = 0`, the worker's
kernel raises ZeroDivisionError and the error propagates — and the
Cython thread-pool/process-pool backends (iteration4) and the nogil
thread-pool backend (iteration5), whose spec-modelled kernels fail
with the spec's `InvalidArgument` condition on the zero budget. -/
theorem integrate_n_iter_zero_fails (f : ℚ → Except PyError ℚ)
    (g s : ℚ → ℚ) (a b : ℚ) (n_jobs : ℕ) (h : 1 ≤ n_jobs) :
    integrateE f a b 0 = .error .zeroDivisionError ∧
    integrate_threadedE f a b n_jobs 0 = .error .zeroDivisionError ∧
    integrate_processedE f a b n_jobs 0 = .error .zeroDivisionError ∧
    integrate_cython_threadedE g a b n_jobs 0 = .error .invalidArgument ∧
    integrate_cython_processedE g a b n_jobs 0 = .error .invalidArgument ∧
    integrate_nogil_threaded_sinE s a b n_jobs 0 = .error .invalidArgument :=
  ⟨integrateE_zero f a b,
   integrate_threadedE_budget_zero f a b n_jobs 0 h (Nat.zero_div n_jobs),
   (integrate_processedE_eq_threadedE f a b n_jobs 0).trans
     (integrate_threadedE_budget_zero f a b n_jobs 0 h (Nat.zero_div n_jobs)),
   integrate_cython_threadedE_budget_zero g a b n_jobs 0 h (Nat.zero_div n_jobs),
   (integrate_cython_processedE_eq_threadedE g a b n_jobs 0).trans
     (integrate_cython_threadedE_budget_zero g a b n_jobs 0 h (Nat.zero_div n_jobs)),
   integrate_nogil_threaded_sinE_budget_zero s a b n_jobs 0 h (Nat.zero_div n_jobs)⟩

/-- Witness for C3 at `f = g = s = id`, `a = 0`, `b = 1`, `n_jobs = 2`:
all six backends fail on the `n_iter = 0` task. -/
theorem integrate_n_iter_zero_fails_witness :
    1 ≤ 2 ∧
    (integrateE (fun x => Except.ok x) 0 1 0 = .error .zeroDivisionError ∧
     integrate_threadedE (fun x => Except.ok x) 0 1 2 0 =
       .error .zeroDivisionError ∧
     integrate_processedE (fun x => Except.ok x) 0 1 2 0 =
       .error .zeroDivisionError ∧
     integrate_cython_threadedE (fun x => x) 0 1 2 0 =
       .error .invalidArgument ∧
     integrate_cython_processedE (fun x => x) 0 1 2 0 =
       .error .invalidArgument ∧
     integrate_nogil_threaded_sinE (fun x => x) 0 1 2 0 =
       .error .invalidArgument) :=
  ⟨by norm_num,
   integrate_n_iter_zero_fails (fun x => Except.ok x) (fun x => x)
     (fun x => x) 0 1 2 (by norm_num)⟩

/-- Claim C4, counterexample. With `n_jobs = 2 > n_iter = 1`, the
partitioned computation does not return `0.0`: each partition receives
`1 // 2 = 0` iterations, `integrate` raises ZeroDivisionError inside
the worker, and the error propagates — the call fails as a whole. -/
theorem partition_zero_budget_counterexample :
    integrate_threadedE (fun x => Except.ok x) 0 1 2 1 =
      .error .zeroDivisionError ∧
    ¬ (integrate_threadedE (fun x => Except.ok x) 0 1 2 1 = .ok 0) := by
  constructor
  · exact integrate_threadedE_budget_zero (fun x => Except.ok x) 0 1 2 1
      (by norm_num) (by norm_num)
  · intro hcontra
    rw [integrate_threadedE_budget_zero (fun x => Except.ok x) 0 1 2 1
      (by norm_num) (by norm_num)] at hcontra
    exact Except.noConfusion hcontra

/-- Claim C4, amended. For every `n_jobs > n_iter` with `n_jobs ≥ 1`,
every partition receives `n_iter_i = n_iter / n_jobs = 0` iterations,
and the backend call fails with ZeroDivisionError (the kernel raises on
a zero budget) instead of returning `0.0`. -/
theorem partition_zero_budget_fails (f : ℚ → Except PyError ℚ) (a b : ℚ)
    (n_jobs n_iter : ℕ) (hJ : 1 ≤ n_jobs) (hlt : n_iter < n_jobs) :
    (∀ p ∈ plan a b n_iter n_jobs, p.n_iter_i = 0) ∧
    integrate_threadedE f a b n_jobs n_iter = .error .zeroDivisionError := by
  have hz : n_iter / n_jobs = 0 := Nat.div_eq_of_lt hlt
  constructor
  · intro p hp
    simp only [plan, List.mem_map, List.mem_range] at hp
    obtain ⟨i, hi, rfl⟩ := hp
    exact hz
  · exact integrate_threadedE_budget_zero f a b n_jobs n_iter hJ hz

/-- Witness for the amended C4 at `n_jobs = 2`, `n_iter = 1`. -/
theorem partition_zero_budget_fails_witness :
    1 ≤ 2 ∧ 1 < 2 ∧
    integrate_threadedE (fun x => Except.ok x) 0 1 2 1 =
      .error .zeroDivisionError :=
  ⟨by norm_num, by norm_num,
   (partition_zero_budget_fails (fun x => Except.ok x) 0 1 2 1
     (by norm_num) (by norm_num)).2⟩

/-- Claim C8. The backend's result collection is all-or-nothing: a result
list is produced exactly when every partition's kernel evaluation
succeeds, and if any partition's kernel raises then some raised error
propagates to the caller of `execute` as the call's overall failure (no
partial results are returned). -/
theorem execute_all_or_nothing (ps : List Partition) (f : ℚ → Except PyError ℚ) :
    (∀ l, executeE ps f = .ok l → ∀ p ∈ ps, ∃ v, kernelE f p = .ok v) ∧
    ((∀ p ∈ ps, ∃ v, kernelE f p = .ok v) → ∃ l, executeE ps f = .ok l) ∧
    ((∃ p ∈ ps, ∃ e, kernelE f p = .error e) →
      ∃ p ∈ ps, ∃ e, kernelE f p = .error e ∧ executeE ps f = .error e) := by
  induction ps with
  | nil =>
      refine ⟨?_, ?_, ?_⟩
      · intro l _ p hp
        exact absurd hp (List.not_mem_nil p)
      · intro _
        exact ⟨[], rfl⟩
      · rintro ⟨p, hp, _⟩
        exact absurd hp (List.not_mem_nil p)
  | cons p rest ih =>
      obtain ⟨ih1, ih2, ih3⟩ := ih
      refine ⟨?_, ?_, ?_⟩
      · intro l hl q hq
        cases hk : kernelE f p with
        | error e => rw [executeE, hk] at hl; exact Except.noConfusion hl
        | ok v =>
            cases hr : executeE rest f with
            | error e => rw [executeE, hk, hr] at hl; exact Except.noConfusion hl
            | ok l' =>
                rcases List.mem_cons.mp hq with rfl | hq'
                · exact ⟨v, hk⟩
                · exact ih1 l' hr q hq'
      · intro hall
        obtain ⟨v, hv⟩ := hall p (List.mem_cons_self p rest)
        obtain ⟨l', hl'⟩ := ih2 (fun q hq => hall q (List.mem_cons_of_mem p hq))
        exact ⟨{ index := p.index, value := v } :: l', by rw [executeE, hv, hl']⟩
      · intro hex
        cases hk : kernelE f p with
        | error e =>
            exact ⟨p, List.mem_cons_self p rest, e, hk, by rw [executeE, hk]⟩
        | ok v =>
            have hex' : ∃ q ∈ rest, ∃ e, kernelE f q = .error e := by
              obtain ⟨q, hq, e, he⟩ := hex
              rcases List.mem_cons.mp hq with rfl | hq'
              · rw [hk] at he; exact Except.noConfusion he
              · exact ⟨q, hq', e, he⟩
            obtain ⟨q, hq, e, he, hrest⟩ := ih3 hex'
            exact ⟨q, List.mem_cons_of_mem p hq, e, he, by rw [executeE, hk, hrest]⟩

/-- Witness for C8: the second partition has a zero budget, its kernel
raises ZeroDivisionError, and `execute` fails with that error. -/
theorem execute_all_or_nothing_witness :
    ∃ p ∈ ([⟨0, 0, 1, 1⟩, ⟨1, 1, 2, 0⟩] : List Partition), ∃ e,
      kernelE (fun x => Except.ok x) p = Except.error e ∧
      executeE ([⟨0, 0, 1, 1⟩, ⟨1, 1, 2, 0⟩] : List Partition)
        (fun x => Except.ok x) = Except.error e :=
  (execute_all_or_nothing ([⟨0, 0, 1, 1⟩, ⟨1, 1, 2, 0⟩] : List Partition)
    (fun x => Except.ok x)).2.2
    ⟨⟨1, 1, 2, 0⟩, by simp, PyError.zeroDivisionError, rfl⟩

/-- The benchmark harness's sweep loop
(`compare_threaded_processed.py`, `for n_jobs in [2, 4, 6, 8]:`),
with the two backend calls abstracted as `runT`/`runP` (in the source
they are `integrate_threaded` and `integrate_processed` at
`f = sin`, `a = 0`, `b = π`, `n_iter = 10_000_000`).  The loop has no
try/except, so an exception from either call propagates out of the
whole function; a successful sweep yields, per configuration, the pair
of results that the loop prints. -/
def sweep (runT runP : ℕ → Except PyError ℚ) :
    List ℕ → Except PyError (List (ℕ × ℚ × ℚ))
  | [] => .ok []
  | n :: rest =>
    match runT n with
    | .error e => .error e
    | .ok t =>
      match runP n with
      | .error e => .error e
      | .ok p =>
        match sweep runT runP rest with
        | .error e => .error e
        | .ok more => .ok ((n, t, p) :: more)

/-- Embedding of `compare_threads_processes` from `compare_threaded_processed.py`
(lines 6-27): the sweep over `n_jobs ∈ [2, 4, 6, 8]`. -/
def compare_threads_processes (runT runP : ℕ → Except PyError ℚ) :
    Except PyError (List (ℕ × ℚ × ℚ)) :=
  sweep runT runP [2, 4, 6, 8]

lemma sweep_ok_iff (runT runP : ℕ → Except PyError ℚ) (ns : List ℕ) :
    (∃ l, sweep runT runP ns = .ok l) ↔
    (∀ n ∈ ns, (∃ t, runT n = .ok t) ∧ (∃ p, runP n = .ok p)) := by
  induction ns with
  | nil =>
      constructor
      · intro _ n hn
        exact absurd hn (List.not_mem_nil n)
      · intro _
        exact ⟨[], rfl⟩
  | cons n rest ih =>
      constructor
      · rintro ⟨l, hl⟩
        cases ht : runT n with
        | error e => rw [sweep, ht] at hl; exact Except.noConfusion hl
        | ok t =>
            cases hp : runP n with
            | error e => rw [sweep, ht, hp] at hl; exact Except.noConfusion hl
            | ok p =>
                cases hs : sweep runT runP rest with
                | error e =>
                    rw [sweep, ht, hp, hs] at hl; exact Except.noConfusion hl
                | ok more =>
                    intro k hk
                    rcases List.mem_cons.mp hk with rfl | hk'
                    · exact ⟨⟨t, ht⟩, ⟨p, hp⟩⟩
                    · exact (ih.mp ⟨more, hs⟩) k hk'
      · intro hall
        obtain ⟨⟨t, ht⟩, ⟨p, hp⟩⟩ := hall n (List.mem_cons_self n rest)
        obtain ⟨more, hs⟩ := ih.mpr (fun k hk => hall k (List.mem_cons_of_mem n hk))
        exact ⟨(n, t, p) :: more, by rw [sweep, ht, hp, hs]⟩

/-- Claim C9, counterexample. A single backend failure aborts the whole
sweep: with a threaded backend that fails only at `n_jobs = 4`, the
harness propagates the exception instead of recording the failure and
continuing with `n_jobs = 6, 8`; no record sequence is produced. -/
theorem harness_abort_counterexample :
    compare_threads_processes
      (fun n => if n = 4 then .error .zeroDivisionError else .ok 0)
      (fun _ => .ok 0) = .error .zeroDivisionError ∧
    compare_threads_processes
      (fun n => if n = 4 then .error .zeroDivisionError else .ok 0)
      (fun _ => .ok 0) ≠
      .ok [(2, 0, 0), (4, 0, 0), (6, 0, 0), (8, 0, 0)] :=
  ⟨rfl, fun hl => Except.noConfusion hl⟩

/-- Claim C9, amended. The harness produces its sweep records exactly
when every backend call of every configuration succeeds; any single
backend failure makes the whole sweep fail (the exception propagates —
the loop has no try/except, so nothing is recorded and the remaining
configurations are not reported). -/
theorem harness_aborts_on_failure (runT runP : ℕ → Except PyError ℚ) :
    (∃ l, compare_threads_processes runT runP = .ok l) ↔
    (∀ n ∈ ([2, 4, 6, 8] : List ℕ),
      (∃ t, runT n = .ok t) ∧ (∃ p, runP n = .ok p)) :=
  sweep_ok_iff runT runP [2, 4, 6, 8]

/-- Witness for the amended C9: with both backends total, the sweep at
`n_jobs = 4` is recorded. -/
theorem harness_aborts_on_failure_witness :
    (∃ t, (fun _ : ℕ => (Except.ok (1 : ℚ) : Except PyError ℚ)) 4 = Except.ok t) ∧
    (∃ p, (fun _ : ℕ => (Except.ok (2 : ℚ) : Except PyError ℚ)) 4 = Except.ok p) :=
  (harness_aborts_on_failure (fun _ => Except.ok 1) (fun _ => Except.ok 2)).mp
    ⟨[(2, 1, 2), (4, 1, 2), (6, 1, 2), (8, 1, 2)], rfl⟩ 4 (by norm_num)

/-- The nogil threaded variant (`iteration5/iteration5.py`, lines
12-26), parametrised by the per-partition kernel (in the source,
`ng.integrate_nogil_sin` at `n_iter=n_iter // n_jobs`).  The source's
loop rebinds `results` on every iteration:

    for i in range(n_jobs):
      ...
      fs.append(spawn(a_i, b_i))
      results = [f.result() for f in ftres.as_completed(fs)]
    return sum(results)

modelled by a fold carrying `(fs, results)`, where `results` starts
unbound (`none`, a NameError if read) and after each iteration holds
the values of all futures appended so far.  `ThreadPoolExecutor(0)`
raises ValueError. -/
def integrate_nogil_threaded (kernel : ℚ → ℚ → ℕ → ℚ) (a b : ℚ)
    (n_jobs n_iter : ℕ) : Except PyError ℚ :=
  if n_jobs = 0 then .error .valueError
  else
    match ((List.range n_jobs).foldl
      (fun (st : List ℚ × Option (List ℚ)) (i : ℕ) =>
        ((st.1 ++ [kernel (a + (i : ℚ) * ((b - a) / (n_jobs : ℚ)))
            (a + ((i : ℚ) + 1) * ((b - a) / (n_jobs : ℚ))) (n_iter / n_jobs)]),
         some (st.1 ++ [kernel (a + (i : ℚ) * ((b - a) / (n_jobs : ℚ)))
            (a + ((i : ℚ) + 1) * ((b - a) / (n_jobs : ℚ))) (n_iter / n_jobs)])))
      ([], none)).2 with
    | none => .error .nameError
    | some results => .ok results.sum

/-- The thread-pool variant's shape (`iteration2/iteration2.py`, lines
34-42): submit all partitions, collect results once after the loop,
return their sum — parametrised by the same per-partition kernel. -/
def integrate_threaded_collect_after (kernel : ℚ → ℚ → ℕ → ℚ) (a b : ℚ)
    (n_jobs n_iter : ℕ) : ℚ :=
  ((List.range n_jobs).map
    (fun (i : ℕ) => kernel (a + (i : ℚ) * ((b - a) / (n_jobs : ℚ)))
      (a + ((i : ℚ) + 1) * ((b - a) / (n_jobs : ℚ))) (n_iter / n_jobs))).sum

lemma nogil_foldl_eq (g : ℕ → ℚ) (l : List ℕ) (acc : List ℚ)
    (r : Option (List ℚ)) :
    l.foldl (fun (st : List ℚ × Option (List ℚ)) i =>
        (st.1 ++ [g i], some (st.1 ++ [g i]))) (acc, r) =
      (acc ++ l.map g, if l = [] then r else some (acc ++ l.map g)) := by
  induction l generalizing acc r with
  | nil => simp
  | cons x xs ih =>
      simp only [List.foldl_cons, ih]
      by_cases hxs : xs = []
      · subst hxs; simp
      · simp [hxs, List.append_assoc]

/-- Claim C10. Although the nogil threaded variant collects the futures'
results inside the submission loop (rebinding `results` each
iteration), for every `n_jobs ≥ 1` its final `results` binding holds
all `n_jobs` partial results, so its return value equals the sum
computed by the thread-pool variant's collect-after-the-loop shape with
the same per-partition kernel. -/
theorem nogil_loop_collect_eq_collect_after (kernel : ℚ → ℚ → ℕ → ℚ)
    (a b : ℚ) (n_jobs n_iter : ℕ) (h : 1 ≤ n_jobs) :
    integrate_nogil_threaded kernel a b n_jobs n_iter =
      .ok (integrate_threaded_collect_after kernel a b n_jobs n_iter) := by
  have hne : List.range n_jobs ≠ [] := by
    rw [Ne, List.range_eq_nil]; omega
  rw [integrate_nogil_threaded, if_neg (by omega), nogil_foldl_eq,
    if_neg hne, integrate_threaded_collect_after]
  simp only [List.nil_append]

/-- Witness for C10 at the kernel `(lo, hi, n) ↦ lo`, `a = 0`, `b = 1`,
`n_jobs = 2`, `n_iter = 4`. -/
theorem nogil_loop_collect_eq_collect_after_witness :
    1 ≤ 2 ∧
    integrate_nogil_threaded (fun lo _ _ => lo) 0 1 2 4 =
      .ok (integrate_threaded_collect_after (fun lo _ _ => lo) 0 1 2 4) :=
  ⟨by norm_num,
   nogil_loop_collect_eq_collect_after (fun lo _ _ => lo) 0 1 2 4 (by norm_num)⟩

end LabWork10
